import Mathlib

/-!
Verification development for the redgit git change-management and
LLM response-parsing core.

The git inspection layer (`get_changes`, `get_excluded_changes`,
`stage_files`, `isolated_branch`) is embedded from
`smart_commit/core/gitops.py`.  The sensitivity filter `is_excluded`
(imported there from a security utility module that is not part of the
sources at hand) is treated as an arbitrary boolean predicate parameter
`excl`, and the filesystem existence check `Path(f).exists()` as a
predicate parameter `ex`; every theorem below is universally quantified
over them.

Components whose implementation is absent from the sources (only their
unit tests and the specification describe them) are modelled from the
spec; each such definition carries a doc comment starting with
`Modelled from the spec:`.
-/

namespace RedGit

/-- File status code as produced by `GitOps.get_changes`:
`"U"` untracked, `"M"` modified, `"A"` added, `"D"` deleted. -/
inductive Status where
  | U
  | M
  | A
  | D
deriving DecidableEq, Repr

/-- One entry of the list returned by `get_changes`:
the Python dict `{"file": path, "status": code}`. -/
structure Change where
  file : String
  status : Status
deriving DecidableEq, Repr

/-- One diff item as yielded by GitPython's `repo.index.diff(...)`.
`path` models `item.a_path or item.b_path` (the effective path of the
item); `deleted_file` and `new_file` are the GitPython flags of the
same names. -/
structure DiffItem where
  path : String
  deleted_file : Bool
  new_file : Bool
deriving DecidableEq, Repr

/-- The repository observation state that `get_changes` and
`get_excluded_changes` read: `untracked` models
`repo.untracked_files`, `unstagedDiff` models `repo.index.diff(None)`,
`stagedDiff` models `repo.index.diff("HEAD")`, and `headValid` models
`repo.head.is_valid()` (false exactly when the repository has zero
commits). -/
structure RepoState where
  untracked : List String
  unstagedDiff : List DiffItem
  stagedDiff : List DiffItem
  headValid : Bool
deriving DecidableEq, Repr

/-- The common loop shape of the three source scans inside
`get_changes`: iterate over `(path, status)` pairs threading the `seen`
set; a path not yet seen is added to `seen`, and is appended to the
output when `include_excluded or not is_excluded(f)` holds.  `excl`
stands for `is_excluded`, `ie` for `include_excluded`. -/
def scanSource (excl : String → Bool) (ie : Bool) :
    List (String × Status) → List String → List Change × List String
  | [], seen => ([], seen)
  | e :: rest, seen =>
    if e.1 ∈ seen then
      scanSource excl ie rest seen
    else
      let out := scanSource excl ie rest (e.1 :: seen)
      if ie || !excl e.1 then ({ file := e.1, status := e.2 } :: out.1, out.2) else out

/-- The `(path, status)` pair contributed by one unstaged diff item in
`get_changes`: `"D" if item.deleted_file else "M"`. -/
def unstagedEntry (d : DiffItem) : String × Status :=
  (d.path, if d.deleted_file then Status.D else Status.M)

/-- The `(path, status)` pair contributed by one staged diff item in
`get_changes`: `"A"` for `new_file`, `"D"` for `deleted_file`, else
`"M"`. -/
def stagedEntry (d : DiffItem) : String × Status :=
  (d.path, if d.new_file then Status.A else if d.deleted_file then Status.D else Status.M)

/-- Embedding of `GitOps.get_changes(include_excluded)`: union of
untracked files, unstaged diffs and (when `HEAD` is valid) staged
diffs, in that order, de-duplicated by a shared `seen` set, with the
sensitivity filter applied unless `include_excluded` is set. -/
def get_changes (excl : String → Bool) (ie : Bool) (st : RepoState) : List Change :=
  let r1 := scanSource excl ie (st.untracked.map (fun f => (f, Status.U))) []
  let r2 := scanSource excl ie (st.unstagedDiff.map unstagedEntry) r1.2
  let r3 := if st.headValid then scanSource excl ie (st.stagedDiff.map stagedEntry) r2.2
            else ([], r2.2)
  r1.1 ++ r2.1 ++ r3.1

/-- The common loop shape of the three scans inside
`get_excluded_changes`: a path is recorded (and only then added to
`seen`) when it is unseen and the sensitivity filter flags it. -/
def scanExcluded (excl : String → Bool) :
    List String → List String → List String × List String
  | [], seen => ([], seen)
  | f :: rest, seen =>
    if f ∈ seen then
      scanExcluded excl rest seen
    else if excl f then
      let out := scanExcluded excl rest (f :: seen)
      (f :: out.1, out.2)
    else
      scanExcluded excl rest seen

/-- Embedding of `GitOps.get_excluded_changes()`: the same three-source
union as `get_changes`, but returning only the paths the sensitivity
filter would drop. -/
def get_excluded_changes (excl : String → Bool) (st : RepoState) : List String :=
  let r1 := scanExcluded excl st.untracked []
  let r2 := scanExcluded excl (st.unstagedDiff.map DiffItem.path) r1.2
  let r3 := if st.headValid then scanExcluded excl (st.stagedDiff.map DiffItem.path) r2.2
            else ([], r2.2)
  r1.1 ++ r2.1 ++ r3.1

/-- Result of `GitOps.stage_files`: the returned `(staged, excluded)`
pair, together with the list of paths passed to `repo.index.add`
(`indexAdds`), recording exactly which index mutations the call
performs. -/
structure StageResult where
  staged : List String
  excluded : List String
  indexAdds : List String
deriving DecidableEq, Repr

/-- Embedding of `GitOps.stage_files(files)`: a sensitive file goes to
`excluded` and is never touched; otherwise the file is staged only when
it exists on disk (`ex` models `Path(f).exists()`); a non-excluded,
nonexistent path is dropped from both lists. -/
def stage_files (excl : String → Bool) (ex : String → Bool) : List String → StageResult
  | [] => ⟨[], [], []⟩
  | f :: fs =>
    let r := stage_files excl ex fs
    if excl f then { r with excluded := f :: r.excluded }
    else if ex f then { r with staged := f :: r.staged, indexAdds := f :: r.indexAdds }
    else r

/-- A path participates in one of the three change sources that
`get_changes` unions (the staged source only counting when `HEAD` is
valid). -/
def inSources (st : RepoState) (p : String) : Prop :=
  p ∈ st.untracked ∨ p ∈ st.unstagedDiff.map DiffItem.path ∨
    (st.headValid = true ∧ p ∈ st.stagedDiff.map DiffItem.path)

instance (st : RepoState) (p : String) : Decidable (inSources st p) := by
  unfold inSources
  infer_instance

/-- The untracked-files pass of `get_changes` (first source). -/
def phase1 (excl : String → Bool) (ie : Bool) (st : RepoState) : List Change × List String :=
  scanSource excl ie (st.untracked.map (fun f => (f, Status.U))) []

/-- The unstaged-diff pass of `get_changes` (second source), threading
the `seen` set of the first pass. -/
def phase2 (excl : String → Bool) (ie : Bool) (st : RepoState) : List Change × List String :=
  scanSource excl ie (st.unstagedDiff.map unstagedEntry) (phase1 excl ie st).2

/-- The staged-diff pass of `get_changes` (third source), skipped
entirely when `HEAD` is invalid (zero commits). -/
def phase3 (excl : String → Bool) (ie : Bool) (st : RepoState) : List Change × List String :=
  if st.headValid then scanSource excl ie (st.stagedDiff.map stagedEntry) (phase2 excl ie st).2
  else ([], (phase2 excl ie st).2)

/-- The branch/stash state the orchestrator mutates: the local branch
list, the active branch, the stash depth, whether the working tree is
dirty (`repo.is_dirty(untracked_files=True)`), and the list of commit
messages (most recent first). -/
structure GitState where
  branches : List String
  active : String
  stashes : Nat
  dirty : Bool
  commits : List String
deriving DecidableEq, Repr

/-- `git checkout -b name`: fails when a branch of that name already
exists, otherwise creates the branch and switches to it. -/
def checkout_new (st : GitState) (name : String) : Except Unit GitState :=
  if name ∈ st.branches then Except.error ()
  else Except.ok { st with branches := name :: st.branches, active := name }

/-- `git checkout name`: switches to an existing branch, fails when the
branch does not exist. -/
def checkout_branch (st : GitState) (name : String) : Except Unit GitState :=
  if name ∈ st.branches then Except.ok { st with active := name }
  else Except.error ()

/-- `git stash push --keep-index -m "smart-commit temp"`. -/
def stash_push (st : GitState) : GitState :=
  { st with stashes := st.stashes + 1, dirty := false }

/-- `git stash pop`: fails when the stash is empty. -/
def stash_pop (st : GitState) : Except Unit GitState :=
  if st.stashes = 0 then Except.error ()
  else Except.ok { st with stashes := st.stashes - 1, dirty := true }

/-- The `finally` block of `GitOps.isolated_branch`: attempt to check
out the original branch (swallowing any failure), then, when a stash
was pushed at entry, attempt `stash pop` (again swallowing failure). -/
def isolated_finally (original : String) (hadStash : Bool) (st : GitState) : GitState :=
  let st1 := match checkout_branch st original with
    | Except.ok s => s
    | Except.error _ => st
  if hadStash then
    match stash_pop st1 with
    | Except.ok s => s
    | Except.error _ => st1
  else st1

/-- Embedding of the context manager `GitOps.isolated_branch`: stash
dirty work, try `checkout -b branch_name` and on failure silently retry
with the `-v2` suffix; run the caller body (modelled as a state
transformer returning `(state, raised)`), and in a `finally` block
restore the original branch and pop the stash.  When both checkouts
fail, the second failure propagates to the caller (the returned flag is
`true`) after the `finally` block runs. -/
def isolated_branch (original name : String) (body : GitState → GitState × Bool)
    (st : GitState) : GitState × Bool :=
  let entry := if st.dirty then (stash_push st, true) else (st, false)
  match checkout_new entry.1 name with
  | Except.ok st2 =>
    let b := body st2
    (isolated_finally original entry.2 b.1, b.2)
  | Except.error _ =>
    match checkout_new entry.1 (name ++ "-v2") with
    | Except.ok st2 =>
      let b := body st2
      (isolated_finally original entry.2 b.1, b.2)
    | Except.error _ => (isolated_finally original entry.2 entry.1, true)

/-- Modelled from the spec: `create_branch_and_commit(name, files,
message, strategy)` is absent from the sources (only its unit tests
are present).  Per the spec it filters to stageable files via
`stage_files`; when the staged set is empty it returns `false` without
creating a branch or commit; otherwise it creates or checks out the
branch, stages, commits with `message`, then applies the strategy:
`"merge-request"` keeps the feature branch, any other strategy
(`"local-merge"`) merges back and deletes it; the original branch is
restored in all strategies. -/
def create_branch_and_commit (excl ex : String → Bool) (original : String)
    (name : String) (files : List String) (message : String) (strategy : String)
    (st : GitState) : Bool × GitState :=
  let staged := (stage_files excl ex files).staged
  if staged.isEmpty then (false, st)
  else
    let st1 := if name ∈ st.branches then { st with active := name }
               else { st with branches := name :: st.branches, active := name }
    let st2 := { st1 with commits := message :: st1.commits }
    if strategy = "merge-request" then (true, { st2 with active := original })
    else (true, { st2 with active := original, branches := st2.branches.erase name })

/-- A structural value as produced by YAML/JSON parsing of an LLM
reply: a scalar, a sequence, or a mapping with string keys. -/
inductive YVal where
  | scalar (s : String)
  | seq (items : List YVal)
  | map (entries : List (String × YVal))

/-- Modelled from the spec: the code-fence extraction step of the
response parser (the parser lives in the absent `redgit.core.llm`
module).  Content of a fenced block labeled `yaml` or `json` is used
when present, otherwise the whole text is the candidate. -/
def extractCodeBlock (text : String) : String :=
  let ys := text.splitOn "```yaml"
  if 2 ≤ ys.length then ((ys.getD 1 "").splitOn "```").getD 0 ""
  else
    let js := text.splitOn "```json"
    if 2 ≤ js.length then ((js.getD 1 "").splitOn "```").getD 0 ""
    else text

/-- Strip repeated leading literal `yaml` words (fuel-bounded by the
string length). -/
def stripLeadingYaml : Nat → String → String
  | 0, s => s
  | n + 1, s => if s.startsWith "yaml" then stripLeadingYaml n (s.drop 4) else s

/-- Modelled from the spec: `_clean_yaml_output` of the absent LLM
client — normalize a stray leading literal `yaml` word (also when
duplicated), and the malformed `groupsyaml` prefix concatenation,
before structural parsing. -/
def clean_yaml_output (s : String) : String :=
  let s1 := if s.startsWith "groupsyaml" then "groups" ++ s.drop 10 else s
  let s2 := stripLeadingYaml s1.length s1
  if s2.startsWith "\n" then s2.drop 1 else s2

/-- Look up a key in a parsed mapping. -/
def lookupKey (entries : List (String × YVal)) (k : String) : Option YVal :=
  match entries.find? (fun e => e.1 == k) with
  | some e => some e.2
  | none => none

/-- Modelled from the spec: the list-mode parse `_parse_yaml` of the
absent LLM client.  `parser` stands for the structural YAML/JSON
parser (`yaml.safe_load`), returning `none` on parse failure.  A
mapping with a `groups` sequence yields that sequence; a sequence is
returned directly; an empty mapping/sequence or a parse failure is a
descriptive parse error. -/
def parse_yaml_list (parser : String → Option YVal) (output : String) :
    Except String (List YVal) :=
  let candidate := clean_yaml_output (extractCodeBlock output)
  match parser candidate with
  | none => Except.error "YAML parse error: could not parse LLM output"
  | some (YVal.scalar _) => Except.error "YAML parse error: unexpected scalar output"
  | some (YVal.seq items) =>
    if items.isEmpty then Except.error "YAML parse error: empty result" else Except.ok items
  | some (YVal.map entries) =>
    if entries.isEmpty then Except.error "YAML parse error: empty result"
    else
      match lookupKey entries "groups" with
      | some (YVal.seq items) => Except.ok items
      | _ => Except.error "YAML parse error: no groups found"

/-- Replace or append one key of a record. -/
def setKey (record : List (String × YVal)) (k : String) (v : YVal) :
    List (String × YVal) :=
  if record.any (fun e => e.1 == k) then
    record.map (fun e => if e.1 == k then (k, v) else e)
  else record ++ [(k, v)]

/-- Modelled from the spec: the single-record update mode
`_parse_detailed_result(result, original)` of the absent
`redgit.commands.propose` module.  A successfully parsed non-empty
object is shallow-merged onto a copy of the original record (only keys
present in the new object are overwritten); on parse failure or an
empty object the original record is returned unchanged — this mode
never raises. -/
def parse_detailed_result (parser : String → Option YVal) (output : String)
    (original : List (String × YVal)) : List (String × YVal) :=
  let candidate := clean_yaml_output (extractCodeBlock output)
  match parser candidate with
  | some (YVal.map entries) =>
    if entries.isEmpty then original
    else entries.foldl (fun acc e => setKey acc e.1 e.2) original
  | _ => original

/-- A commit group as parsed from LLM output: the fields the
categorizer reads. -/
structure CommitGroup where
  files : List String
  commit_title : String
  issue_key : Option String
deriving DecidableEq, Repr

/-- Modelled from the spec: `_categorize_groups(groups, task_mgmt)` of
the absent `redgit.commands.propose` module.  Empty-file groups are
dropped before categorization.  A group is a matched candidate iff it
carries a non-empty `issue_key`; with a task tracker present the key is
resolved (`tracker` models `task_mgmt.get_issue`, an issue being
modelled by its identifier) — an unresolvable key demotes the group to
unmatched with its `issue_key` cleared; without a tracker every group
is unmatched regardless of its `issue_key`.  Matched groups carry the
resolved issue reference. -/
def categorize_groups (groups : List CommitGroup)
    (tracker : Option (String → Option String)) :
    List (CommitGroup × String) × List CommitGroup :=
  let gs := groups.filter (fun g => !g.files.isEmpty)
  match tracker with
  | none => ([], gs)
  | some get_issue =>
    gs.foldr (fun g acc =>
      match g.issue_key with
      | some k =>
        if k = "" then (acc.1, g :: acc.2)
        else
          match get_issue k with
          | some issue => ((g, issue) :: acc.1, acc.2)
          | none => (acc.1, { g with issue_key := none } :: acc.2)
      | none => (acc.1, g :: acc.2)) ([], [])

/-- Configuration record of one provider from the static catalogue. -/
structure ProviderCfg where
  kind : String
  default_model : Option String
  cmd : Option String
  install : Option String
deriving DecidableEq, Repr

/-- The errors LLM client construction can raise: unknown provider
name (ValueError), provider present but unavailable on the host
(FileNotFoundError with install hint), and auto-detection finding no
available provider (FileNotFoundError "No LLM provider found"). -/
inductive LLMError where
  | unknownProvider (name : String)
  | providerUnavailable (name : String)
  | noProviderFound
deriving DecidableEq, Repr

/-- Modelled from the spec: the provider-resolution step of
`LLMClient.__init__` (the `redgit.core.llm` module is absent; only its
unit tests are present).  `catalogue` is the provider catalogue in
order, `avail` models `check_provider_available`.  `"auto"` picks the
first available provider in catalogue order and fails loudly when none
is available; an explicit name fails when absent from the catalogue or
unavailable on the host. -/
def resolve_provider (catalogue : List (String × ProviderCfg))
    (avail : String → ProviderCfg → Bool) (requested : String) :
    Except LLMError (String × ProviderCfg) :=
  if requested = "auto" then
    match catalogue.find? (fun e => avail e.1 e.2) with
    | some e => Except.ok e
    | none => Except.error LLMError.noProviderFound
  else
    match catalogue.find? (fun e => e.1 == requested) with
    | none => Except.error (LLMError.unknownProvider requested)
    | some e =>
      if avail e.1 e.2 then Except.ok e
      else Except.error (LLMError.providerUnavailable e.1)

lemma scanSource_seen (excl : String → Bool) (ie : Bool) :
    ∀ (src : List (String × Status)) (seen : List String) (p : String),
      p ∈ (scanSource excl ie src seen).2 ↔ p ∈ seen ∨ p ∈ src.map Prod.fst := by
  intro src
  induction src with
  | nil => intro seen p; simp [scanSource]
  | cons e rest ih =>
    intro seen p
    rw [scanSource]
    by_cases h1 : e.1 ∈ seen
    · rw [if_pos h1, ih]
      by_cases hp : p = e.1
      · rw [hp]; simp [h1]
      · simp [hp]
    · rw [if_neg h1]
      by_cases h2 : (ie || !excl e.1) = true
      · rw [if_pos h2]
        simp only [ih, List.map_cons, List.mem_cons]
        tauto
      · rw [if_neg h2]
        simp only [ih, List.map_cons, List.mem_cons]
        tauto

lemma scanSource_mem (excl : String → Bool) (ie : Bool) :
    ∀ (src : List (String × Status)) (seen : List String) (p : String),
      p ∈ (scanSource excl ie src seen).1.map Change.file ↔
        p ∈ src.map Prod.fst ∧ p ∉ seen ∧ (ie = true ∨ excl p = false) := by
  intro src
  induction src with
  | nil => intro seen p; simp [scanSource]
  | cons e rest ih =>
    intro seen p
    rw [scanSource]
    by_cases h1 : e.1 ∈ seen
    · rw [if_pos h1, ih]
      by_cases hp : p = e.1
      · rw [hp]; simp [h1]
      · simp [hp]
    · rw [if_neg h1]
      by_cases h2 : (ie || !excl e.1) = true
      · rw [if_pos h2]
        by_cases hp : p = e.1
        · rw [hp]
          have hf : ie = true ∨ excl e.1 = false := by
            cases hieb : ie
            · cases hexb : excl e.1
              · exact Or.inr rfl
              · rw [hieb, hexb] at h2; simp at h2
            · exact Or.inl rfl
          simp [ih, h1, hf]
        · simp only [List.map_cons, List.mem_cons, ih, hp, false_or, not_or]
      · rw [if_neg h2]
        by_cases hp : p = e.1
        · have hie : ie = false := by
            cases hieb : ie
            · rfl
            · exact absurd (by simp [hieb]) h2
          have hex : excl e.1 = true := by
            cases hexb : excl e.1
            · exact absurd (by simp [hexb]) h2
            · rfl
          rw [hp, ih]
          simp [hie, hex]
        · simp only [List.map_cons, List.mem_cons, ih, hp, false_or, not_or]

lemma scanSource_entry (excl : String → Bool) (ie : Bool) :
    ∀ (src : List (String × Status)) (seen : List String) (c : Change),
      c ∈ (scanSource excl ie src seen).1 → (c.file, c.status) ∈ src ∧ c.file ∉ seen := by
  intro src
  induction src with
  | nil => intro seen c h; simp [scanSource] at h
  | cons e rest ih =>
    intro seen c h
    by_cases h1 : e.1 ∈ seen
    · rw [scanSource, if_pos h1] at h
      rcases ih seen c h with ⟨hm, hns⟩
      exact ⟨List.mem_cons_of_mem _ hm, hns⟩
    · rw [scanSource, if_neg h1] at h
      by_cases h2 : (ie || !excl e.1) = true
      · rw [if_pos h2] at h
        rcases List.mem_cons.mp h with h | h
        · subst h
          exact ⟨by simp, h1⟩
        · rcases ih _ c h with ⟨hm, hns⟩
          refine ⟨List.mem_cons_of_mem _ hm, fun hc => hns (List.mem_cons_of_mem _ hc)⟩
      · rw [if_neg h2] at h
        rcases ih _ c h with ⟨hm, hns⟩
        refine ⟨List.mem_cons_of_mem _ hm, fun hc => hns (List.mem_cons_of_mem _ hc)⟩

lemma scanSource_nodup (excl : String → Bool) (ie : Bool) :
    ∀ (src : List (String × Status)) (seen : List String),
      ((scanSource excl ie src seen).1.map Change.file).Nodup := by
  intro src
  induction src with
  | nil => intro seen; simp [scanSource]
  | cons e rest ih =>
    intro seen
    by_cases h1 : e.1 ∈ seen
    · rw [scanSource, if_pos h1]; exact ih seen
    · rw [scanSource, if_neg h1]
      by_cases h2 : (ie || !excl e.1) = true
      · rw [if_pos h2]
        simp only [List.map_cons, List.nodup_cons]
        refine ⟨?_, ih _⟩
        intro hc
        rcases List.mem_map.mp hc with ⟨c, hcmem, hcf⟩
        have := (scanSource_entry excl ie rest (e.1 :: seen) c hcmem).2
        exact this (hcf ▸ List.mem_cons_self _ _)
      · rw [if_neg h2]; exact ih _

lemma scanSource_files_not_seen (excl : String → Bool) (ie : Bool)
    (src : List (String × Status)) (seen : List String) (p : String)
    (h : p ∈ (scanSource excl ie src seen).1.map Change.file) : p ∉ seen :=
  ((scanSource_mem excl ie src seen p).mp h).2.1

/-- Membership characterization for `get_changes`: a path appears in
the result exactly when it occurs in one of the three sources and
passes the filter (or `include_excluded` is set). -/
lemma get_changes_file_mem (excl : String → Bool) (ie : Bool) (st : RepoState) (p : String) :
    p ∈ (get_changes excl ie st).map Change.file ↔
      inSources st p ∧ (ie = true ∨ excl p = false) := by
  unfold get_changes inSources
  simp only [List.map_append, List.mem_append]
  rw [scanSource_mem, scanSource_mem]
  have hfst1 : (st.untracked.map (fun f => (f, Status.U))).map Prod.fst = st.untracked := by
    rw [List.map_map]
    exact List.map_id st.untracked
  have hfst2 : (st.unstagedDiff.map unstagedEntry).map Prod.fst =
      st.unstagedDiff.map DiffItem.path := by
    rw [List.map_map]
    rfl
  have hfst3 : (st.stagedDiff.map stagedEntry).map Prod.fst =
      st.stagedDiff.map DiffItem.path := by
    rw [List.map_map]
    rfl
  rw [hfst1, hfst2]
  rw [scanSource_seen]
  simp only [List.not_mem_nil, false_or, hfst1]
  by_cases hv : st.headValid
  · simp only [hv, if_true, true_and]
    rw [scanSource_mem, hfst3, scanSource_seen, scanSource_seen]
    simp only [List.not_mem_nil, false_or, hfst1, hfst2]
    tauto
  · have hv' : st.headValid = false := by simpa using hv
    simp only [hv', if_false, Bool.false_eq_true, false_and, or_false]
    simp only [List.map_nil, List.not_mem_nil, or_false]
    tauto

lemma scanExcluded_seen (excl : String → Bool) :
    ∀ (src : List String) (seen : List String) (p : String),
      p ∈ (scanExcluded excl src seen).2 ↔ p ∈ seen ∨ (p ∈ src ∧ excl p = true) := by
  intro src
  induction src with
  | nil => intro seen p; simp [scanExcluded]
  | cons f rest ih =>
    intro seen p
    rw [scanExcluded]
    by_cases h1 : f ∈ seen
    · rw [if_pos h1, ih]
      by_cases hp : p = f
      · rw [hp]; simp [h1]
      · simp [hp]
    · rw [if_neg h1]
      by_cases h2 : excl f = true
      · rw [if_pos h2]
        by_cases hp : p = f
        · rw [hp]; simp [ih, h1, h2]
        · simp only [ih, List.mem_cons, hp, false_or]
      · rw [if_neg h2, ih]
        by_cases hp : p = f
        · rw [hp]
          have hex : excl f = false := by
            cases hexb : excl f
            · rfl
            · exact absurd hexb h2
          simp [h1, hex]
        · simp only [List.mem_cons, hp, false_or]

lemma scanExcluded_mem (excl : String → Bool) :
    ∀ (src : List String) (seen : List String) (p : String),
      p ∈ (scanExcluded excl src seen).1 ↔ p ∈ src ∧ p ∉ seen ∧ excl p = true := by
  intro src
  induction src with
  | nil => intro seen p; simp [scanExcluded]
  | cons f rest ih =>
    intro seen p
    rw [scanExcluded]
    by_cases h1 : f ∈ seen
    · rw [if_pos h1, ih]
      by_cases hp : p = f
      · rw [hp]; simp [h1]
      · simp [hp]
    · rw [if_neg h1]
      by_cases h2 : excl f = true
      · rw [if_pos h2]
        by_cases hp : p = f
        · rw [hp]; simp [ih, h1, h2]
        · simp only [List.mem_cons, ih, hp, false_or, not_or]
      · rw [if_neg h2, ih]
        by_cases hp : p = f
        · rw [hp]
          have hex : excl f = false := by
            cases hexb : excl f
            · rfl
            · exact absurd hexb h2
          simp [h1, hex]
        · simp only [List.mem_cons, hp, false_or]

/-- Membership characterization for `get_excluded_changes`: a path
appears exactly when it occurs in one of the three sources and the
sensitivity filter flags it. -/
lemma get_excluded_changes_mem (excl : String → Bool) (st : RepoState) (p : String) :
    p ∈ get_excluded_changes excl st ↔ inSources st p ∧ excl p = true := by
  unfold get_excluded_changes inSources
  simp only [List.mem_append]
  rw [scanExcluded_mem, scanExcluded_mem, scanExcluded_seen]
  simp only [List.not_mem_nil, false_or]
  by_cases hv : st.headValid
  · simp only [hv, if_true, true_and]
    rw [scanExcluded_mem, scanExcluded_seen, scanExcluded_seen]
    simp only [List.not_mem_nil, false_or]
    tauto
  · have hv' : st.headValid = false := by simpa using hv
    simp only [hv', if_false, Bool.false_eq_true, false_and, or_false]
    simp only [List.not_mem_nil, or_false]
    tauto

lemma stage_files_mem_staged (excl ex : String → Bool) :
    ∀ (files : List String) (p : String),
      p ∈ (stage_files excl ex files).staged ↔
        p ∈ files ∧ excl p = false ∧ ex p = true := by
  intro files
  induction files with
  | nil => intro p; simp [stage_files]
  | cons f fs ih =>
    intro p
    by_cases h1 : excl f = true
    · rw [stage_files, if_pos h1]
      simp only [List.mem_cons, ih]
      by_cases hp : p = f
      · subst hp; simp [h1]
      · simp [hp]
    · rw [stage_files, if_neg h1]
      by_cases h2 : ex f = true
      · rw [if_pos h2]
        simp only [List.mem_cons, ih]
        by_cases hp : p = f
        · subst hp
          simp [Bool.eq_false_iff.mpr h1, h2]
        · simp [hp]
      · rw [if_neg h2]
        simp only [List.mem_cons, ih]
        by_cases hp : p = f
        · subst hp
          simp only [true_or, true_and]
          constructor
          · tauto
          · rintro ⟨_, hex⟩
            exact absurd hex h2
        · simp [hp]

lemma stage_files_mem_excluded (excl ex : String → Bool) :
    ∀ (files : List String) (p : String),
      p ∈ (stage_files excl ex files).excluded ↔ p ∈ files ∧ excl p = true := by
  intro files
  induction files with
  | nil => intro p; simp [stage_files]
  | cons f fs ih =>
    intro p
    by_cases h1 : excl f = true
    · rw [stage_files, if_pos h1]
      simp only [List.mem_cons, ih]
      by_cases hp : p = f
      · subst hp; simp [h1]
      · simp [hp]
    · rw [stage_files, if_neg h1]
      by_cases h2 : ex f = true
      · rw [if_pos h2]
        simp only [List.mem_cons, ih]
        by_cases hp : p = f
        · subst hp
          constructor
          · tauto
          · rintro ⟨_, hf⟩
            exact absurd hf h1
        · simp [hp]
      · rw [if_neg h2]
        simp only [List.mem_cons, ih]
        by_cases hp : p = f
        · subst hp
          constructor
          · tauto
          · rintro ⟨_, hf⟩
            exact absurd hf h1
        · simp [hp]

lemma stage_files_indexAdds (excl ex : String → Bool) :
    ∀ files : List String,
      (stage_files excl ex files).indexAdds = (stage_files excl ex files).staged := by
  intro files
  induction files with
  | nil => simp [stage_files]
  | cons f fs ih =>
    by_cases h1 : excl f = true
    · rw [stage_files, if_pos h1]; simpa using ih
    · rw [stage_files, if_neg h1]
      by_cases h2 : ex f = true
      · rw [if_pos h2]; simpa using ih
      · rw [if_neg h2]; exact ih

lemma map_fst_untrackedSrc (st : RepoState) :
    (st.untracked.map (fun f => (f, Status.U))).map Prod.fst = st.untracked := by
  rw [List.map_map]
  exact List.map_id _

lemma map_fst_unstagedSrc (st : RepoState) :
    (st.unstagedDiff.map unstagedEntry).map Prod.fst = st.unstagedDiff.map DiffItem.path := by
  rw [List.map_map]
  rfl

lemma map_fst_stagedSrc (st : RepoState) :
    (st.stagedDiff.map stagedEntry).map Prod.fst = st.stagedDiff.map DiffItem.path := by
  rw [List.map_map]
  rfl

lemma get_changes_phases (excl : String → Bool) (ie : Bool) (st : RepoState) :
    get_changes excl ie st =
      (phase1 excl ie st).1 ++ (phase2 excl ie st).1 ++ (phase3 excl ie st).1 := rfl

lemma phase1_seen (excl : String → Bool) (ie : Bool) (st : RepoState) (p : String) :
    p ∈ (phase1 excl ie st).2 ↔ p ∈ st.untracked := by
  unfold phase1
  rw [scanSource_seen, map_fst_untrackedSrc]
  simp

lemma phase2_seen (excl : String → Bool) (ie : Bool) (st : RepoState) (p : String) :
    p ∈ (phase2 excl ie st).2 ↔
      p ∈ st.untracked ∨ p ∈ st.unstagedDiff.map DiffItem.path := by
  unfold phase2
  rw [scanSource_seen, map_fst_unstagedSrc, phase1_seen]

lemma phase1_files_mem (excl : String → Bool) (ie : Bool) (st : RepoState) (p : String) :
    p ∈ (phase1 excl ie st).1.map Change.file ↔
      p ∈ st.untracked ∧ (ie = true ∨ excl p = false) := by
  unfold phase1
  rw [scanSource_mem, map_fst_untrackedSrc]
  simp

lemma phase1_entry_u (excl : String → Bool) (ie : Bool) (st : RepoState) (c : Change)
    (hc : c ∈ (phase1 excl ie st).1) : c.file ∈ st.untracked ∧ c.status = Status.U := by
  unfold phase1 at hc
  have h := scanSource_entry excl ie _ _ c hc
  rcases List.mem_map.mp h.1 with ⟨a, ha, heq⟩
  have h1 : a = c.file := congrArg Prod.fst heq
  have h2 : Status.U = c.status := congrArg Prod.snd heq
  exact ⟨h1 ▸ ha, h2.symm⟩

lemma phase2_entry (excl : String → Bool) (ie : Bool) (st : RepoState) (c : Change)
    (hc : c ∈ (phase2 excl ie st).1) :
    c.file ∈ st.unstagedDiff.map DiffItem.path ∧ c.file ∉ st.untracked := by
  unfold phase2 at hc
  have h := scanSource_entry excl ie _ _ c hc
  constructor
  · rcases List.mem_map.mp h.1 with ⟨d, hd, heq⟩
    have hdp : d.path = c.file := congrArg Prod.fst heq
    exact List.mem_map.mpr ⟨d, hd, hdp⟩
  · intro hu
    exact h.2 ((phase1_seen excl ie st c.file).mpr hu)

lemma phase3_entry (excl : String → Bool) (ie : Bool) (st : RepoState) (c : Change)
    (hc : c ∈ (phase3 excl ie st).1) :
    st.headValid = true ∧ c.file ∈ st.stagedDiff.map DiffItem.path ∧
      c.file ∉ st.untracked ∧ c.file ∉ st.unstagedDiff.map DiffItem.path := by
  by_cases hv : st.headValid = true
  · unfold phase3 at hc
    rw [hv] at hc
    simp only [if_true] at hc
    have h := scanSource_entry excl ie _ _ c hc
    have hns : c.file ∉ (phase2 excl ie st).2 := h.2
    rw [phase2_seen] at hns
    push_neg at hns
    refine ⟨hv, ?_, hns.1, hns.2⟩
    rcases List.mem_map.mp h.1 with ⟨d, hd, heq⟩
    have hdp : d.path = c.file := congrArg Prod.fst heq
    exact List.mem_map.mpr ⟨d, hd, hdp⟩
  · have hv' : st.headValid = false := by simpa using hv
    unfold phase3 at hc
    rw [hv'] at hc
    simp at hc

/-- C5: `get_changes` unions its three change sources in the fixed
order untracked files, unstaged diffs, staged diffs; a path produced by
an earlier source is never reclassified by a later one (each path gets
exactly one entry, and a path in `untracked` is always classified `U`);
and when the repository has zero commits (`headValid = false`) the
staged-diff source is skipped entirely: the result is independent of
the staged diffs, with no error possible (the function is total). -/
theorem get_changes_priority (excl : String → Bool) (ie : Bool) (st : RepoState) :
    (∃ c1 c2 c3, get_changes excl ie st = c1 ++ c2 ++ c3 ∧
      (∀ c ∈ c1, c.file ∈ st.untracked ∧ c.status = Status.U) ∧
      (∀ c ∈ c2, c.file ∈ st.unstagedDiff.map DiffItem.path ∧ c.file ∉ st.untracked) ∧
      (∀ c ∈ c3, st.headValid = true ∧ c.file ∈ st.stagedDiff.map DiffItem.path ∧
        c.file ∉ st.untracked ∧ c.file ∉ st.unstagedDiff.map DiffItem.path)) ∧
    ((get_changes excl ie st).map Change.file).Nodup ∧
    (∀ p ∈ st.untracked, (ie = true ∨ excl p = false) →
      Change.mk p Status.U ∈ get_changes excl ie st ∧
      (∀ c ∈ get_changes excl ie st, c.file = p → c.status = Status.U)) ∧
    (st.headValid = false → ∀ l,
      get_changes excl ie { st with stagedDiff := l } = get_changes excl ie st) := by
  have hf1 : ∀ p, p ∈ (phase1 excl ie st).1.map Change.file → p ∈ st.untracked := by
    intro p hp
    exact ((phase1_files_mem excl ie st p).mp hp).1
  have hf2 : ∀ p, p ∈ (phase2 excl ie st).1.map Change.file →
      p ∉ st.untracked := by
    intro p hp
    rcases List.mem_map.mp hp with ⟨c, hc, hcf⟩
    exact hcf ▸ (phase2_entry excl ie st c hc).2
  have hf3 : ∀ p, p ∈ (phase3 excl ie st).1.map Change.file →
      p ∉ st.untracked ∧ p ∉ st.unstagedDiff.map DiffItem.path := by
    intro p hp
    rcases List.mem_map.mp hp with ⟨c, hc, hcf⟩
    have h := phase3_entry excl ie st c hc
    exact ⟨hcf ▸ h.2.2.1, hcf ▸ h.2.2.2⟩
  have hs2 : ∀ p, p ∈ (phase2 excl ie st).1.map Change.file →
      p ∈ st.unstagedDiff.map DiffItem.path := by
    intro p hp
    rcases List.mem_map.mp hp with ⟨c, hc, hcf⟩
    exact hcf ▸ (phase2_entry excl ie st c hc).1
  have n1 : ((phase1 excl ie st).1.map Change.file).Nodup := scanSource_nodup excl ie _ _
  have n2 : ((phase2 excl ie st).1.map Change.file).Nodup := scanSource_nodup excl ie _ _
  have n3 : ((phase3 excl ie st).1.map Change.file).Nodup := by
    by_cases hv : st.headValid = true
    · unfold phase3
      rw [hv]
      simp only [if_true]
      exact scanSource_nodup excl ie _ _
    · have hv' : st.headValid = false := by simpa using hv
      unfold phase3
      rw [hv']
      simp
  refine ⟨⟨(phase1 excl ie st).1, (phase2 excl ie st).1, (phase3 excl ie st).1,
      get_changes_phases excl ie st,
      fun c hc => phase1_entry_u excl ie st c hc,
      fun c hc => phase2_entry excl ie st c hc,
      fun c hc => phase3_entry excl ie st c hc⟩, ?_, ?_, ?_⟩
  · rw [get_changes_phases]
    simp only [List.map_append]
    rw [List.nodup_append, List.nodup_append]
    refine ⟨⟨n1, n2, ?_⟩, n3, ?_⟩
    · intro a ha1 ha2
      exact hf2 a ha2 (hf1 a ha1)
    · intro a ha ha3
      rcases List.mem_append.mp ha with h | h
      · exact (hf3 a ha3).1 (hf1 a h)
      · exact (hf3 a ha3).2 (hs2 a h)
  · intro p hpu hfilter
    constructor
    · have hmem : p ∈ (phase1 excl ie st).1.map Change.file :=
        (phase1_files_mem excl ie st p).mpr ⟨hpu, hfilter⟩
      rcases List.mem_map.mp hmem with ⟨c, hc, hcf⟩
      have hstat := (phase1_entry_u excl ie st c hc).2
      have hcpu : c = Change.mk p Status.U := by
        cases c with
        | mk cf cs =>
          simp only [Change.mk.injEq]
          exact ⟨hcf, by simpa using hstat⟩
      rw [get_changes_phases]
      exact List.mem_append.mpr (Or.inl (List.mem_append.mpr (Or.inl (hcpu ▸ hc))))
    · intro c hc hcp
      rw [get_changes_phases] at hc
      rcases List.mem_append.mp hc with hc | hc3
      · rcases List.mem_append.mp hc with hc1 | hc2
        · exact (phase1_entry_u excl ie st c hc1).2
        · exact absurd (hcp ▸ hpu) ((phase2_entry excl ie st c hc2).2)
      · exact absurd (hcp ▸ hpu) ((phase3_entry excl ie st c hc3).2.2.1)
  · intro hv l
    simp [get_changes, hv]

/-- Witness for C5 at a concrete repository state: the untracked file
`a.py` appears classified `U`, and in a zero-commit repository the
staged-diff list is irrelevant to the result. -/
theorem get_changes_priority_witness :
    Change.mk "a.py" Status.U ∈
      get_changes (fun q => q == ".env") false ⟨["a.py"], [], [], false⟩ ∧
    get_changes (fun q => q == ".env") false
        ⟨["a.py"], [], [DiffItem.mk "x.py" false true], false⟩ =
      get_changes (fun q => q == ".env") false ⟨["a.py"], [], [], false⟩ := by
  have h := get_changes_priority (fun q => q == ".env") false ⟨["a.py"], [], [], false⟩
  exact ⟨(h.2.2.1 "a.py" (by simp) (Or.inr (by decide))).1,
    h.2.2.2 rfl [DiffItem.mk "x.py" false true]⟩

/-- C1: for every path `p` flagged by the sensitivity filter,
`get_changes` with default arguments (`include_excluded = false`) never
includes `p`; `stage_files` never stages `p` (nor touches the index for
it) even when `p` is among the requested files, routing it to the
returned excluded list instead; and `get_changes` with
`include_excluded = true` does include `p` whenever `p` is among the
changed paths. -/
theorem sensitive_paths_never_surface (excl : String → Bool) (st : RepoState)
    (p : String) (h : excl p = true) :
    p ∉ (get_changes excl false st).map Change.file ∧
    (∀ (ex : String → Bool) (files : List String), p ∈ files →
      p ∈ (stage_files excl ex files).excluded ∧
      p ∉ (stage_files excl ex files).staged ∧
      p ∉ (stage_files excl ex files).indexAdds) ∧
    (inSources st p → p ∈ (get_changes excl true st).map Change.file) := by
  refine ⟨?_, fun ex files hmem => ⟨?_, ?_, ?_⟩, fun hsrc => ?_⟩
  · intro hc
    rcases ((get_changes_file_mem excl false st p).mp hc).2 with hf | hf
    · simp at hf
    · rw [h] at hf
      simp at hf
  · exact (stage_files_mem_excluded excl ex files p).mpr ⟨hmem, h⟩
  · intro hc
    have hs := (stage_files_mem_staged excl ex files p).mp hc
    rw [h] at hs
    simp at hs
  · intro hc
    rw [stage_files_indexAdds] at hc
    have hs := (stage_files_mem_staged excl ex files p).mp hc
    rw [h] at hs
    simp at hs
  · exact (get_changes_file_mem excl true st p).mpr ⟨hsrc, Or.inl rfl⟩

/-- Witness for C1 at the spec's own example: with `.env` and
`normal.py` untracked, the default `get_changes` omits `.env`,
`stage_files` routes `.env` to the excluded list, and
`include_excluded = true` surfaces `.env`. -/
theorem sensitive_paths_never_surface_witness :
    ".env" ∉ (get_changes (fun q => q == ".env") false
      ⟨[".env", "normal.py"], [], [], true⟩).map Change.file ∧
    ".env" ∈ (stage_files (fun q => q == ".env") (fun _ => true)
      ["normal.py", ".env"]).excluded ∧
    ".env" ∉ (stage_files (fun q => q == ".env") (fun _ => true)
      ["normal.py", ".env"]).staged ∧
    ".env" ∈ (get_changes (fun q => q == ".env") true
      ⟨[".env", "normal.py"], [], [], true⟩).map Change.file := by
  have h := sensitive_paths_never_surface (fun q => q == ".env")
    ⟨[".env", "normal.py"], [], [], true⟩ ".env" (by decide)
  have hst := h.2.1 (fun _ => true) ["normal.py", ".env"] (by simp)
  exact ⟨h.1, hst.1, hst.2.1, h.2.2 (Or.inl (by simp))⟩

/-- C7: a requested path that is neither sensitivity-excluded nor
existing on disk (which is exactly the situation of a tracked file
deleted from the working tree) is silently dropped by `stage_files`:
it lands in neither returned list and the index is not modified for
it. -/
theorem stage_files_silent_drop (excl ex : String → Bool) (files : List String)
    (p : String) (hmem : p ∈ files) (hexcl : excl p = false) (hex : ex p = false) :
    p ∉ (stage_files excl ex files).staged ∧
    p ∉ (stage_files excl ex files).excluded ∧
    p ∉ (stage_files excl ex files).indexAdds := by
  refine ⟨fun hc => ?_, fun hc => ?_, fun hc => ?_⟩
  · have hs := (stage_files_mem_staged excl ex files p).mp hc
    rw [hex] at hs
    simp at hs
  · have hs := (stage_files_mem_excluded excl ex files p).mp hc
    rw [hexcl] at hs
    simp at hs
  · rw [stage_files_indexAdds] at hc
    have hs := (stage_files_mem_staged excl ex files p).mp hc
    rw [hex] at hs
    simp at hs

/-- Witness for C7 at the test's concrete case: staging only the
nonexistent `nonexistent.py` returns it in neither list. -/
theorem stage_files_silent_drop_witness :
    "nonexistent.py" ∉ (stage_files (fun q => q == ".env") (fun _ => false)
      ["nonexistent.py"]).staged ∧
    "nonexistent.py" ∉ (stage_files (fun q => q == ".env") (fun _ => false)
      ["nonexistent.py"]).excluded := by
  have h := stage_files_silent_drop (fun q => q == ".env") (fun _ => false)
    ["nonexistent.py"] "nonexistent.py" (by simp) (by decide) rfl
  exact ⟨h.1, h.2.1⟩

lemma isolated_finally_spec (original : String) (hadStash : Bool) (s : GitState)
    (hmem : original ∈ s.branches) (hpos : hadStash = true → s.stashes ≠ 0) :
    (isolated_finally original hadStash s).active = original ∧
    (isolated_finally original hadStash s).stashes =
      (if hadStash = true then s.stashes - 1 else s.stashes) := by
  unfold isolated_finally checkout_branch
  rw [if_pos hmem]
  by_cases hh : hadStash = true
  · have hz : s.stashes ≠ 0 := hpos hh
    rw [hh]
    simp [stash_pop, hz]
  · have hh' : hadStash = false := by simpa using hh
    rw [hh']
    simp

lemma finally_after_body (original : String) (hadStash : Bool)
    (body : GitState → GitState × Bool)
    (hb : ∀ s, original ∈ s.branches → original ∈ (body s).1.branches)
    (hs : ∀ s, (body s).1.stashes = s.stashes)
    (s2 : GitState) (hmem : original ∈ s2.branches)
    (hpos : hadStash = true → s2.stashes ≠ 0) :
    (isolated_finally original hadStash (body s2).1).active = original ∧
    (isolated_finally original hadStash (body s2).1).stashes =
      (if hadStash = true then s2.stashes - 1 else s2.stashes) := by
  have h1 := isolated_finally_spec original hadStash (body s2).1 (hb s2 hmem)
    (fun hh => by rw [hs s2]; exact hpos hh)
  rw [hs s2] at h1
  exact h1

/-- C2: `isolated_branch` restores the original branch recorded at
construction on every exit path — normal completion, an exception in
the caller body, and even the path where both branch-creation checkouts
fail — and pops any stash pushed at entry (net stash depth unchanged),
provided the body does not itself delete the home branch or consume the
stash; and the (spec-modelled) `create_branch_and_commit` leaves the
active branch at the original under every strategy — a keep-branch
strategy only exempts the branch's continued existence. -/
theorem isolation_restores_home (original name : String)
    (body : GitState → GitState × Bool) (st : GitState)
    (h0 : original ∈ st.branches)
    (hb : ∀ s, original ∈ s.branches → original ∈ (body s).1.branches)
    (hs : ∀ s, (body s).1.stashes = s.stashes) :
    ((isolated_branch original name body st).1.active = original ∧
     (isolated_branch original name body st).1.stashes = st.stashes) ∧
    (∀ (excl ex : String → Bool) (files : List String) (message strategy : String)
        (st2 : GitState), st2.active = original →
      (create_branch_and_commit excl ex original name files message strategy
        st2).2.active = original) := by
  constructor
  · have hbr : (stash_push st).branches = st.branches := rfl
    have hss : (stash_push st).stashes = st.stashes + 1 := rfl
    unfold isolated_branch
    by_cases hd : st.dirty = true
    · rw [hd]
      simp only [if_true]
      by_cases hn : name ∈ (stash_push st).branches
      · rw [checkout_new, if_pos hn]
        by_cases hn2 : (name ++ "-v2") ∈ (stash_push st).branches
        · rw [checkout_new, if_pos hn2]
          have hf := isolated_finally_spec original true (stash_push st)
            (by rw [hbr]; exact h0)
            (by intro _; rw [hss]; exact Nat.succ_ne_zero _)
          refine ⟨hf.1, ?_⟩
          rw [hf.2]
          simp [hss]
        · rw [checkout_new, if_neg hn2]
          have hf := finally_after_body original true body hb hs
            { stash_push st with
                branches := (name ++ "-v2") :: (stash_push st).branches,
                active := name ++ "-v2" }
            (by simp only [hbr]; exact List.mem_cons_of_mem _ h0)
            (by intro _; simp [hss])
          refine ⟨hf.1, ?_⟩
          rw [hf.2]
          simp [hss]
      · rw [checkout_new, if_neg hn]
        have hf := finally_after_body original true body hb hs
          { stash_push st with
              branches := name :: (stash_push st).branches, active := name }
          (by simp only [hbr]; exact List.mem_cons_of_mem _ h0)
          (by intro _; simp [hss])
        refine ⟨hf.1, ?_⟩
        rw [hf.2]
        simp [hss]
    · have hd' : st.dirty = false := by simpa using hd
      rw [hd']
      simp only [Bool.false_eq_true, if_false]
      by_cases hn : name ∈ st.branches
      · rw [checkout_new, if_pos hn]
        by_cases hn2 : (name ++ "-v2") ∈ st.branches
        · rw [checkout_new, if_pos hn2]
          have hf := isolated_finally_spec original false st h0 (by simp)
          refine ⟨hf.1, ?_⟩
          rw [hf.2]
          simp
        · rw [checkout_new, if_neg hn2]
          have hf := finally_after_body original false body hb hs
            { st with branches := (name ++ "-v2") :: st.branches,
                      active := name ++ "-v2" }
            (List.mem_cons_of_mem _ h0) (by simp)
          refine ⟨hf.1, ?_⟩
          rw [hf.2]
          simp
      · rw [checkout_new, if_neg hn]
        have hf := finally_after_body original false body hb hs
          { st with branches := name :: st.branches, active := name }
          (List.mem_cons_of_mem _ h0) (by simp)
        refine ⟨hf.1, ?_⟩
        rw [hf.2]
        simp
  · intro excl ex files message strategy st2 hact
    simp only [create_branch_and_commit]
    split_ifs
    all_goals first | exact hact | rfl

/-- Witness for C2 at a concrete clean repository: with the trivial
body the isolated scope returns to `main` with stash depth unchanged,
and `create_branch_and_commit` ends on `main`. -/
theorem isolation_restores_home_witness :
    ((isolated_branch "main" "feat" (fun s => (s, false))
        ⟨["main"], "main", 0, false, []⟩).1.active = "main" ∧
     (isolated_branch "main" "feat" (fun s => (s, false))
        ⟨["main"], "main", 0, false, []⟩).1.stashes = 0) ∧
    (create_branch_and_commit (fun _ => false) (fun _ => true) "main" "feat"
      ["a.py"] "feat: add a" "local-merge"
      ⟨["main"], "main", 0, false, []⟩).2.active = "main" := by
  have h := isolation_restores_home "main" "feat" (fun s => (s, false))
    ⟨["main"], "main", 0, false, []⟩ (by simp) (fun s hsb => hsb) (fun s => rfl)
  exact ⟨h.1, h.2 (fun _ => false) (fun _ => true) ["a.py"] "feat: add a"
    "local-merge" ⟨["main"], "main", 0, false, []⟩ rfl⟩

/-- C3: when every requested file is either sensitivity-excluded or
nonexistent (empty stageable subset), the (spec-modelled)
`create_branch_and_commit` returns `false` and leaves the repository
state unchanged: in particular a fresh branch name still does not
exist afterwards and the commit list is untouched. -/
theorem create_branch_and_commit_noop (excl ex : String → Bool)
    (original name : String) (files : List String) (message strategy : String)
    (st : GitState) (h : ∀ f ∈ files, excl f = true ∨ ex f = false) :
    create_branch_and_commit excl ex original name files message strategy st =
      (false, st) ∧
    (name ∉ st.branches →
      name ∉ (create_branch_and_commit excl ex original name files message strategy
        st).2.branches) ∧
    (create_branch_and_commit excl ex original name files message strategy
      st).2.commits = st.commits := by
  have hempty : (stage_files excl ex files).staged = [] := by
    rw [List.eq_nil_iff_forall_not_mem]
    intro p hp
    have hm := (stage_files_mem_staged excl ex files p).mp hp
    rcases h p hm.1 with hh | hh
    · rw [hm.2.1] at hh
      simp at hh
    · rw [hm.2.2] at hh
      simp at hh
  have heq : create_branch_and_commit excl ex original name files message strategy st =
      (false, st) := by
    unfold create_branch_and_commit
    rw [hempty]
    simp
  refine ⟨heq, ?_, ?_⟩
  · intro hn
    rw [heq]
    exact hn
  · rw [heq]

/-- Witness for C3 at the test's concrete case: committing only the
excluded `.env` is a no-op returning `false`. -/
theorem create_branch_and_commit_noop_witness :
    create_branch_and_commit (fun q => q == ".env") (fun _ => true) "main"
      "feature/test" [".env"] "feat: nothing" "local-merge"
      ⟨["main"], "main", 0, false, []⟩ =
      (false, ⟨["main"], "main", 0, false, []⟩) :=
  (create_branch_and_commit_noop (fun q => q == ".env") (fun _ => true) "main"
    "feature/test" [".env"] "feat: nothing" "local-merge"
    ⟨["main"], "main", 0, false, []⟩ (by decide)).1

/-- C10 counterexample: when the requested branch name and its `-v2`
variant both already exist, entering `isolated_branch` does raise (the
returned exception flag is `true`), contradicting the claim that the
fallback never raises. -/
theorem isolated_branch_v2_collision_raises :
    (isolated_branch "main" "b" (fun s => (s, false))
      ⟨["b-v2", "b", "main"], "main", 0, false, []⟩).2 = true := by
  decide

/-- C10 (amended): when the checkout creating the requested branch
fails because the branch already exists and the `-v2` name is free, the
scope does not raise and does not switch to the existing branch: it
silently creates and switches to the `-v2` branch, running the body
from there; only when the `-v2` checkout also fails does the error
propagate (after the cleanup restores the original branch). -/
theorem isolated_branch_v2_fallback (original name : String)
    (body : GitState → GitState × Bool) (st entry : GitState)
    (hdirty : st.dirty = false) (hname : name ∈ st.branches)
    (hv2 : (name ++ "-v2") ∉ st.branches)
    (hentry : entry = { st with branches := (name ++ "-v2") :: st.branches,
                                active := name ++ "-v2" }) :
    isolated_branch original name body st =
      (isolated_finally original false (body entry).1, (body entry).2) := by
  subst hentry
  unfold isolated_branch
  rw [hdirty]
  simp only [Bool.false_eq_true, if_false]
  rw [checkout_new, if_pos hname, checkout_new, if_neg hv2]
  simp [hdirty]

/-- Witness for the amended C10 at a concrete state: entering with
`b` already existing and `b-v2` free lands the body on `b-v2` and does
not raise. -/
theorem isolated_branch_v2_fallback_witness :
    isolated_branch "main" "b" (fun s => (s, false))
      ⟨["b", "main"], "main", 0, false, []⟩ =
      (isolated_finally "main" false ⟨["b-v2", "b", "main"], "b-v2", 0, false, []⟩,
       false) := by
  have h := isolated_branch_v2_fallback "main" "b" (fun s => (s, false))
    ⟨["b", "main"], "main", 0, false, []⟩
    ⟨["b-v2", "b", "main"], "b-v2", 0, false, []⟩ rfl (by simp) (by decide) rfl
  rw [h]

/-- C4: on input containing no parseable structured content (the
structural parser fails on every candidate), the list-mode parse
returns a descriptive parse error while the single-record update mode
returns the original record unchanged and never raises. -/
theorem parse_failure_modes (parser : String → Option YVal) (output : String)
    (original : List (String × YVal)) (h : ∀ s, parser s = none) :
    (∃ msg, parse_yaml_list parser output = Except.error msg) ∧
    parse_detailed_result parser output original = original := by
  constructor
  · refine ⟨"YAML parse error: could not parse LLM output", ?_⟩
    simp only [parse_yaml_list, h]
  · simp only [parse_detailed_result, h]

/-- Witness for C4 at the spec's example input `"random prose with no
structure"` with a parser that finds nothing structural. -/
theorem parse_failure_modes_witness :
    (∃ msg, parse_yaml_list (fun _ => none) "random prose with no structure" =
      Except.error msg) ∧
    parse_detailed_result (fun _ => none) "random prose with no structure"
      [("commit_title", YVal.scalar "original title")] =
      [("commit_title", YVal.scalar "original title")] :=
  parse_failure_modes (fun _ => none) "random prose with no structure"
    [("commit_title", YVal.scalar "original title")] (fun _ => rfl)

/-- C6: categorization without a task-tracker collaborator yields an
empty matched list and, as unmatched, exactly the input groups whose
`files` field is non-empty — regardless of any `issue_key` values. -/
theorem categorize_groups_offline (groups : List CommitGroup) :
    categorize_groups groups none =
      ([], groups.filter (fun g => !g.files.isEmpty)) := rfl

lemma find_first_of_prefix {α : Type} (p : α → Bool) :
    ∀ (l1 : List α) (k : α) (l2 : List α), (∀ j ∈ l1, p j = false) → p k = true →
      (l1 ++ k :: l2).find? p = some k := by
  intro l1
  induction l1 with
  | nil =>
    intro k l2 _ hk
    simpa using List.find?_cons_of_pos l2 hk
  | cons j rest ih =>
    intro k l2 hl hk
    have hj : p j = false := hl j (by simp)
    rw [List.cons_append, List.find?_cons_of_neg _ (by simp [hj])]
    exact ih k l2 (fun x hx => hl x (by simp [hx])) hk

/-- C8: constructing the LLM client with `provider = "auto"` selects
the first provider in catalogue order whose availability check passes,
and when no provider in the catalogue is available the construction
fails with the no-provider error instead of falling back silently. -/
theorem auto_provider_selection (catalogue : List (String × ProviderCfg))
    (avail : String → ProviderCfg → Bool) :
    (∀ (l1 l2 : List (String × ProviderCfg)) (k : String × ProviderCfg),
      catalogue = l1 ++ k :: l2 → (∀ j ∈ l1, avail j.1 j.2 = false) →
      avail k.1 k.2 = true →
      resolve_provider catalogue avail "auto" = Except.ok k) ∧
    ((∀ j ∈ catalogue, avail j.1 j.2 = false) →
      resolve_provider catalogue avail "auto" =
        Except.error LLMError.noProviderFound) := by
  constructor
  · intro l1 l2 k hcat hl1 hk
    unfold resolve_provider
    rw [if_pos rfl, hcat, find_first_of_prefix (fun e => avail e.1 e.2) l1 k l2 hl1 hk]
  · intro hnone
    unfold resolve_provider
    rw [if_pos rfl]
    have hfind : catalogue.find? (fun e => avail e.1 e.2) = none := by
      rw [List.find?_eq_none]
      intro x hx
      simp [hnone x hx]
    rw [hfind]

/-- Witness for C8 at the test's concrete catalogue: with only
`ollama` available, auto-detection skips `claude-code` and selects
`ollama`. -/
theorem auto_provider_selection_witness :
    resolve_provider
      [("claude-code", ⟨"cli", some "claude", some "claude", none⟩),
       ("ollama", ⟨"api", some "llama2", none, none⟩)]
      (fun n _ => n == "ollama") "auto" =
      Except.ok ("ollama", ⟨"api", some "llama2", none, none⟩) :=
  (auto_provider_selection
      [("claude-code", ⟨"cli", some "claude", some "claude", none⟩),
       ("ollama", ⟨"api", some "llama2", none, none⟩)]
      (fun n _ => n == "ollama")).1
    [("claude-code", ⟨"cli", some "claude", some "claude", none⟩)] []
    ("ollama", ⟨"api", some "llama2", none, none⟩) rfl (by decide) (by decide)

/-- C9: the path set of `get_changes` with `include_excluded = true` is
the disjoint union of the path set of the default `get_changes` and the
result of `get_excluded_changes`: every changed path is covered by
exactly one of the two. -/
theorem get_changes_partition (excl : String → Bool) (st : RepoState) (p : String) :
    (p ∈ (get_changes excl true st).map Change.file ↔
      (p ∈ (get_changes excl false st).map Change.file ∨
        p ∈ get_excluded_changes excl st)) ∧
    ¬(p ∈ (get_changes excl false st).map Change.file ∧
      p ∈ get_excluded_changes excl st) := by
  rw [get_changes_file_mem, get_changes_file_mem, get_excluded_changes_mem]
  cases hexcl : excl p <;> simp [hexcl]

/-- Witness for C9 at a concrete state: with `.env` and `normal.py`
untracked, `.env` is covered by the excluded list and not by the
default list, and both are covered under `include_excluded = true`. -/
theorem get_changes_partition_witness :
    (".env" ∈ (get_changes (fun q => q == ".env") true
        ⟨[".env", "normal.py"], [], [], true⟩).map Change.file ↔
      (".env" ∈ (get_changes (fun q => q == ".env") false
          ⟨[".env", "normal.py"], [], [], true⟩).map Change.file ∨
        ".env" ∈ get_excluded_changes (fun q => q == ".env")
          ⟨[".env", "normal.py"], [], [], true⟩)) ∧
    ¬(".env" ∈ (get_changes (fun q => q == ".env") false
        ⟨[".env", "normal.py"], [], [], true⟩).map Change.file ∧
      ".env" ∈ get_excluded_changes (fun q => q == ".env")
        ⟨[".env", "normal.py"], [], [], true⟩) :=
  get_changes_partition (fun q => q == ".env") ⟨[".env", "normal.py"], [], [], true⟩ ".env"

end RedGit
